import Mathlib

/-!
Shallow embedding of the core of the `nextjs16-migrator` tool: the
Scanner/Analyzer (`src/analyzers/compatibility.ts`), the Rewrite Engine
(`src/transformers/engine.ts`), the Snapshot/Restore Manager
(`src/utils/backup.ts`) and the `migrate`/`rollback` command orchestration.
File contents are strings; the JavaScript substring test `content.includes`
is modelled by `containsStr`; jscodeshift syntax trees are modelled by a
small expression language `JExpr` covering the node kinds the cache rules
manipulate (identifiers, string literals, calls, member access, await).
Filesystems are association lists from path to content; fallible operations
return `Except String`.
-/

namespace NextMigrator

/-- JavaScript `haystack.includes(needle)`: substring test on strings. -/
def containsStr (h n : String) : Bool := decide (n.data <:+: h.data)

theorem containsStr_trans (c n m : String) (h1 : containsStr c n = true)
    (h2 : m.data <:+: n.data) : containsStr c m = true := by
  simp only [containsStr, decide_eq_true_iff] at h1 ⊢
  exact h2.trans h1

/-- The detection part of `ProjectAnalyzer.analyzeFile`
(`src/analyzers/compatibility.ts` lines 135-167): the ordered list of
transformation tags pushed for a file with the given path and content. -/
def detectTransformations (filePath content : String) : List String :=
  (if filePath = "middleware.ts" ∨ filePath = "middleware.js"
   then ["middleware-to-proxy"] else []) ++
  (if containsStr content "revalidateTag" && !containsStr content "cacheLife"
   then ["update-revalidate-tag"] else []) ++
  (if containsStr content "revalidateTag(" && !containsStr content "revalidateTag("
   then ["add-cache-life-profile"] else []) ++
  (if containsStr content "next/image" || containsStr content "next/legacy/image"
   then ["update-next-image"] else []) ++
  (if containsStr content "params" && !containsStr content "await params"
   then ["make-params-async"] else []) ++
  (if containsStr content "searchParams" && !containsStr content "await searchParams"
   then ["make-search-params-async"] else []) ++
  (if (containsStr content "cookies()" || containsStr content "headers()")
      && !containsStr content "await cookies()" && !containsStr content "await headers()"
   then ["make-cookies-headers-async"] else [])

/-- `ProjectAnalyzer.getFileType` (`src/analyzers/compatibility.ts` lines 171-185). -/
def getFileType (filePath : String) : String :=
  if containsStr filePath "middleware" || containsStr filePath "proxy" then "middleware"
  else if containsStr filePath "next.config" then "config"
  else if containsStr filePath "pages/api" || containsStr filePath "app/api" then "api"
  else if containsStr filePath "components" || containsStr filePath "pages"
          || containsStr filePath "app" then "component"
  else "other"

/-- `FileToTransform` from `src/analyzers/compatibility.ts`. -/
structure FileToTransform where
  path : String
  type : String
  transformations : List String
deriving Repr, DecidableEq

/-- `ProjectAnalyzer.analyzeFile` as a fallible operation: reads the file
(`fs.readFile`, which may fail, and the failure is not caught anywhere in
the analyzer) and computes the file record. -/
def analyzeFile (readF : String → Except String String) (p : String) :
    Except String FileToTransform :=
  (readF p).map fun content =>
    { path := p, type := getFileType p, transformations := detectTransformations p content }

/-- The per-candidate loop of `ProjectAnalyzer.findFilesToTransform`
(`src/analyzers/compatibility.ts` lines 113-122): each glob candidate is
analyzed and kept when it has at least one transformation tag.  A read
failure inside `analyzeFile` propagates: there is no try/catch in
`findFilesToTransform` or in `analyze`. -/
def findFilesToTransform (readF : String → Except String String) :
    List String → Except String (List FileToTransform)
  | [] => .ok []
  | p :: rest => do
    let f ← analyzeFile readF p
    let others ← findFilesToTransform readF rest
    if f.transformations.length > 0 then pure (f :: others) else pure others

/-- The `complexity` field of `ProjectAnalysis`. -/
inductive Complexity where
  | low
  | medium
  | high
deriving Repr, DecidableEq

/-- `ProjectAnalyzer.calculateComplexity` (`src/analyzers/compatibility.ts`
lines 214-228): complexity tier and estimated-time string from the number
of files to transform and the number of issues. -/
def calculateComplexity (fileCount issueCount : Nat) : Complexity × String :=
  if fileCount > 50 ∨ issueCount > 5 then (Complexity.high, "30-60 minutes")
  else if fileCount > 20 ∨ issueCount > 2 then (Complexity.medium, "15-30 minutes")
  else (Complexity.low, "5-15 minutes")

/-- The fixed map from complexity tier to its time-range string. -/
def estimatedTimeFor : Complexity → String
  | Complexity.high => "30-60 minutes"
  | Complexity.medium => "15-30 minutes"
  | Complexity.low => "5-15 minutes"

/-- `ProjectAnalysis` from `src/analyzers/compatibility.ts`. -/
structure ProjectAnalysis where
  isCompatible : Bool
  currentVersion : String
  filesToTransform : List FileToTransform
  issues : List String
  recommendations : List String
  complexity : Complexity
  estimatedTime : String
deriving Repr, DecidableEq

/-! ### Syntax trees

`JExpr` models the jscodeshift nodes manipulated by the cache rules:
`Identifier`, string `Literal`, `CallExpression`, `MemberExpression` and
`AwaitExpression`.  A `JProgram` is a file consisting of expression
statements, the fragment the cache-rule claims exercise. -/

inductive JExpr where
  | ident (name : String)
  | lit (s : String)
  | call (callee : JExpr) (args : List JExpr)
  | member (obj : JExpr) (prop : String)
  | waitE (e : JExpr)
deriving Repr

abbrev JProgram := List JExpr

mutual
def JExpr.beq : JExpr → JExpr → Bool
  | .ident a, .ident b => a == b
  | .lit a, .lit b => a == b
  | .call c1 a1, .call c2 a2 => JExpr.beq c1 c2 && JExpr.beqList a1 a2
  | .member o1 p1, .member o2 p2 => JExpr.beq o1 o2 && p1 == p2
  | .waitE e1, .waitE e2 => JExpr.beq e1 e2
  | _, _ => false
def JExpr.beqList : List JExpr → List JExpr → Bool
  | [], [] => true
  | a :: as, b :: bs => JExpr.beq a b && JExpr.beqList as bs
  | _, _ => false
end

instance : BEq JExpr := ⟨JExpr.beq⟩

/-- The filter of `updateRevalidateTag`
(`src/transformers/engine.ts`): `j.Identifier.check(callee) &&
callee.name === 'revalidateTag'`. -/
def isRevalidateTagIdent : JExpr → Bool
  | .ident n => n == "revalidateTag"
  | _ => false

mutual
/-- `MigrationEngine.updateRevalidateTag` on a single node: every
`CallExpression` whose callee is the identifier `revalidateTag` and whose
argument list has length exactly 1 gets the string literal `'max'` pushed
as a second argument; all other nodes are kept, with the rewrite applied
inside them (jscodeshift's `root.find(j.CallExpression)` visits nested
calls as well). -/
def updateRevalidateTagExpr : JExpr → JExpr
  | .ident n => .ident n
  | .lit s => .lit s
  | .member o p => .member (updateRevalidateTagExpr o) p
  | .waitE e => .waitE (updateRevalidateTagExpr e)
  | .call c args =>
    let c2 := updateRevalidateTagExpr c
    let args2 := updateRevalidateTagArgs args
    if isRevalidateTagIdent c2 && args2.length == 1
    then .call c2 (args2 ++ [JExpr.lit "max"])
    else .call c2 args2
def updateRevalidateTagArgs : List JExpr → List JExpr
  | [] => []
  | e :: es => updateRevalidateTagExpr e :: updateRevalidateTagArgs es
end

/-- `MigrationEngine.updateRevalidateTag` on a whole file. -/
def updateRevalidateTag (p : JProgram) : JProgram :=
  updateRevalidateTagArgs p

/-- `MigrationEngine.addCacheLifeProfile`
(`src/transformers/engine.ts` lines 443-446): returns its input unchanged
("This is handled by updateRevalidateTag"). -/
def addCacheLifeProfile (source : JProgram) : JProgram := source

/-- Serialization back to source text (recast's `root.toSource()`),
restricted to the constructs of `JExpr`. -/
def commaSep : List String → String
  | [] => ""
  | [s] => s
  | s :: rest => s ++ ", " ++ commaSep rest

mutual
def serializeExpr : JExpr → String
  | .ident n => n
  | .lit s => "\"" ++ s ++ "\""
  | .call c args => serializeExpr c ++ "(" ++ commaSep (serializeArgs args) ++ ")"
  | .member o p => serializeExpr o ++ "." ++ p
  | .waitE e => "await " ++ serializeExpr e
def serializeArgs : List JExpr → List String
  | [] => []
  | e :: es => serializeExpr e :: serializeArgs es
end

def serializeProgram (p : JProgram) : String :=
  String.intercalate "\n" (p.map (fun e => serializeExpr e ++ ";"))

/-! ### Rewrite engine

`MigrationEngine` from `src/transformers/engine.ts`.  The engine is generic
in the content type `α` (source text, or its parsed form when a rule's
effect on the syntax tree matters): a registry maps transformation tags to
rules `α → Except String α`, and the filesystem is an association list from
path to content. -/

/-- A change entry as pushed by `transformFile`. -/
structure Change where
  file : String
  description : String
  type : String
deriving Repr, DecidableEq

/-- An error entry as pushed by `migrate`. -/
structure MigError where
  file : String
  message : String
deriving Repr, DecidableEq

/-- `MigrationResult` from `src/transformers/engine.ts`. -/
structure MigrationResult where
  successful : Nat
  failed : Nat
  changes : List Change
  errors : List MigError
deriving Repr, DecidableEq

/-- The `transformations` map of `MigrationEngine`: tag to rewrite rule. -/
def Registry (α : Type) := List (String × (α → Except String α))

/-- `MigrationEngine.getTransformationDescription`. -/
def getTransformationDescription (t : String) : String :=
  if t = "middleware-to-proxy" then "Convert middleware.ts to proxy.ts"
  else if t = "update-revalidate-tag" then "Update revalidateTag calls with cacheLife profile"
  else if t = "add-cache-life-profile" then "Add cacheLife profile to revalidateTag"
  else if t = "update-next-image" then "Update next/image imports and usage"
  else if t = "make-params-async" then "Make params usage async"
  else if t = "make-search-params-async" then "Make searchParams usage async"
  else if t = "make-cookies-headers-async" then "Make cookies/headers usage async"
  else t

/-- A filesystem: association list from path to file content. -/
abbrev FS (α : Type) := List (String × α)

/-- `fs.writeFile`: replace the content stored at `p`. -/
def fsWrite {α : Type} (fs : FS α) (p : String) (c : α) : FS α :=
  (p, c) :: fs.eraseP (fun e => e.1 == p)

/-- The tag loop of `MigrationEngine.transformFile`
(`src/transformers/engine.ts` lines 359-381): apply the file's tags in
order to the running source.  A tag missing from the registry is skipped
silently; a rule error aborts the loop with the wrapped message
`Transformation <tag> failed: <message>`, and no change entry for this or
any later tag is produced. -/
def applyTags {α : Type} (reg : Registry α) (filePath : String) :
    List String → α → Except String (α × List Change)
  | [], src => .ok (src, [])
  | t :: rest, src =>
    match List.lookup t reg with
    | none => applyTags reg filePath rest src
    | some tr =>
      match tr src with
      | .error e => .error s!"Transformation {t} failed: {e}"
      | .ok out =>
        match applyTags reg filePath rest out with
        | .error e => .error e
        | .ok (fin, cs) =>
          .ok (fin, { file := filePath,
                      description := getTransformationDescription t,
                      type := "transformation" } :: cs)

/-- `MigrationEngine.transformFile` (`src/transformers/engine.ts` lines
348-389): fail if the file does not exist, apply the tags to the source
read from disk, and write the result back only when the final text differs
from the original. -/
def transformFile {α : Type} [BEq α] (reg : Registry α) (fs : FS α)
    (f : FileToTransform) : Except String (FS α × List Change) :=
  match List.lookup f.path fs with
  | none => .error s!"File not found: {f.path}"
  | some source =>
    match applyTags reg f.path f.transformations source with
    | .error e => .error e
    | .ok (fin, cs) =>
      .ok (if fin == source then fs else fsWrite fs f.path fin, cs)

/-- The per-file loop of `MigrationEngine.migrate`
(`src/transformers/engine.ts` lines 331-343): every file of the report is
processed; a successful `transformFile` contributes its changes and bumps
`successful`, a failing one bumps `failed` and records one error entry
with the file's path and the thrown message, leaving the filesystem as it
was before that file. -/
def migrate {α : Type} [BEq α] (reg : Registry α) :
    FS α → List FileToTransform → FS α × MigrationResult
  | fs, [] => (fs, ⟨0, 0, [], []⟩)
  | fs, f :: rest =>
    match transformFile reg fs f with
    | .ok (fs1, cs) =>
      let r := migrate reg fs1 rest
      (r.1, ⟨r.2.successful + 1, r.2.failed, cs ++ r.2.changes, r.2.errors⟩)
    | .error e =>
      let r := migrate reg fs rest
      (r.1, ⟨r.2.successful, r.2.failed + 1, r.2.changes,
             ⟨f.path, e⟩ :: r.2.errors⟩)

/-- The rules of the registry that the cache claims exercise, at the
syntax-tree level: `update-revalidate-tag` and `add-cache-life-profile`
are total rewrites (jscodeshift fails only on unparsable source). -/
def cacheRegistry : Registry JProgram :=
  [("update-revalidate-tag", fun p => .ok (updateRevalidateTag p)),
   ("add-cache-life-profile", fun p => .ok (addCacheLifeProfile p))]

/-! ### Snapshot / Restore manager

`BackupManager` from `src/utils/backup.ts`.  The catalog file
`metadata.json` is modelled as `Option (List Backup)` (`none` when the file
does not exist). -/

/-- `Backup` from `src/utils/backup.ts`. -/
structure Backup where
  id : String
  timestamp : String
  description : String
  gitCommit : Option String
  filesBackup : Option String
deriving Repr, DecidableEq

/-- `BackupManager.saveBackupMetadata` (`src/utils/backup.ts` lines
405-421): read the existing catalog (empty when the metadata file is
missing), `unshift` the new backup onto the front, trim to the first 10
entries when the catalog now exceeds 10, and write it back. -/
def saveBackupMetadata (b : Backup) (meta : Option (List Backup)) :
    Option (List Backup) :=
  let m := b :: meta.getD []
  some (if m.length > 10 then m.take 10 else m)

/-- `BackupManager.listBackups` (`src/utils/backup.ts` lines 423-431):
the stored catalog, or `[]` when the metadata file is missing. -/
def listBackups (meta : Option (List Backup)) : List Backup :=
  meta.getD []

/-- A sequence of `createBackup` calls, as far as the catalog is concerned:
each call builds its `Backup` record and hands it to
`saveBackupMetadata`. -/
def insertBackups (meta : Option (List Backup)) (bs : List Backup) :
    Option (List Backup) :=
  bs.foldl (fun m b => saveBackupMetadata b m) meta

/-- The externally visible steps of `BackupManager.restoreBackup`. -/
inductive RestoreAction where
  | gitReset (rev : String)
  | copyFile (name : String)
deriving Repr, DecidableEq

/-- `BackupManager.restoreBackup` (`src/utils/backup.ts` lines 433-466).
`dirFiles` lists the contents of a file-copy backup directory (`none` when
`fs.pathExists` is false); `gitResetTree rev` is the effect of
`git reset --hard rev` on the working tree, and `gitResetOk` tells whether
that git invocation succeeds (on failure the error is logged and the tree
kept).  Returns the outcome, the resulting working tree, and the list of
restore steps attempted. -/
def restoreBackup (catalog : List Backup)
    (dirFiles : String → Option (List (String × String)))
    (gitResetTree : String → FS String → FS String)
    (gitResetOk : Bool) (tree : FS String) (backupId : String) :
    Except String Unit × FS String × List RestoreAction :=
  match catalog.find? (fun b => b.id == backupId) with
  | none => (.error s!"Backup {backupId} not found", tree, [])
  | some b =>
    let step1 : FS String × List RestoreAction :=
      match b.gitCommit with
      | some rev =>
        (if gitResetOk then gitResetTree rev tree else tree,
         [RestoreAction.gitReset rev])
      | none => (tree, [])
    match b.filesBackup with
    | some dir =>
      match dirFiles dir with
      | some files =>
        (.ok (), files.foldl (fun t fc => fsWrite t fc.1 fc.2) step1.1,
         step1.2 ++ files.map (fun fc => RestoreAction.copyFile fc.1))
      | none => (.ok (), step1.1, step1.2)
    | none => (.ok (), step1.1, step1.2)

/-! ### Command orchestration

`migrateCommand` from `src/cli/commands/migrate.ts`, as the sequence of
effectful steps it performs after the initial (read-only) analysis.  The
`confirmProceed` argument is the answer to the interactive confirmation
prompt. -/

/-- The option flags of `migrateCommand`; `none` models an absent flag. -/
structure MigrateOptions where
  dryRun : Option Bool
  yes : Option Bool
  backup : Option Bool
  performance : Option Bool
  batch : Option Bool
deriving Repr, DecidableEq

/-- The effectful steps of `migrateCommand` after analysis. -/
inductive MigAction where
  | createBackup
  | promptConfirm
  | perfAnalysis
  | previewChanges
  | runMigrate
  | postAnalysis
  | perfCompare
  | genReport
deriving Repr, DecidableEq

/-- `migrateCommand` (`src/cli/commands/migrate.ts` lines 63-195) as the
ordered list of effectful steps it performs.  When the analysis reports
`isCompatible = false` the command prints the issues and returns at once,
before the backup step and before the engine is constructed; otherwise a
backup is created unless `--no-backup` was given, the user is prompted
unless `--batch` or `--yes`, a cancelled prompt returns, `--dry-run` stops
after `previewChanges`, and a real run executes the migration followed by
the post-migration analysis, the optional performance comparison and the
report. -/
def migrateCommandTrace (o : MigrateOptions) (analysis : ProjectAnalysis)
    (confirmProceed : Bool) : List MigAction :=
  if analysis.isCompatible = false then []
  else
    let backupActs := if o.backup ≠ some false then [MigAction.createBackup] else []
    let needPrompt := !(o.batch.getD false) && !(o.yes.getD false)
    if needPrompt && !confirmProceed then backupActs ++ [MigAction.promptConfirm]
    else
      let promptActs := if needPrompt then [MigAction.promptConfirm] else []
      let perfActs := if o.performance.getD false then [MigAction.perfAnalysis] else []
      if o.dryRun.getD false then
        backupActs ++ promptActs ++ perfActs ++ [MigAction.previewChanges]
      else
        backupActs ++ promptActs ++ perfActs ++ [MigAction.runMigrate, MigAction.postAnalysis]
          ++ (if o.performance.getD false then [MigAction.perfCompare] else [])
          ++ [MigAction.genReport]

/-! ### Claims -/

/-- C1: for every analysis with `isCompatible = false`, `migrateCommand`
performs no mutation of the working tree: it returns before the backup
step and before invoking the rewrite engine, so its trace of effectful
steps is empty — in particular it contains neither a backup creation nor
a migration (nor even a dry-run preview). -/
theorem migrate_incompatible_no_mutation (o : MigrateOptions)
    (analysis : ProjectAnalysis) (confirmProceed : Bool)
    (h : analysis.isCompatible = false) :
    migrateCommandTrace o analysis confirmProceed = [] ∧
    MigAction.createBackup ∉ migrateCommandTrace o analysis confirmProceed ∧
    MigAction.runMigrate ∉ migrateCommandTrace o analysis confirmProceed ∧
    MigAction.previewChanges ∉ migrateCommandTrace o analysis confirmProceed := by
  have ht : migrateCommandTrace o analysis confirmProceed = [] := by
    unfold migrateCommandTrace
    simp [h]
  exact ⟨ht, by simp [ht], by simp [ht], by simp [ht]⟩

theorem migrate_incompatible_no_mutation_witness :
    migrateCommandTrace ⟨none, none, none, none, none⟩
      ⟨false, "12.0.0", [], ["Next.js version 12.0.0 is too old. Need version 14+ for migration to 16."],
       [], Complexity.low, "5-15 minutes"⟩ true = [] :=
  (migrate_incompatible_no_mutation _ _ _ rfl).1

/-- C5: for every id absent from the backup catalog, `restoreBackup` fails
with the NotFound error and leaves the working tree completely unmodified:
no git reset is attempted and no file is copied onto the project root. -/
theorem restore_unknown_id_untouched (catalog : List Backup)
    (dirFiles : String → Option (List (String × String)))
    (gitResetTree : String → FS String → FS String)
    (gitResetOk : Bool) (tree : FS String) (backupId : String)
    (h : ∀ b ∈ catalog, b.id ≠ backupId) :
    restoreBackup catalog dirFiles gitResetTree gitResetOk tree backupId =
      (Except.error s!"Backup {backupId} not found", tree, []) := by
  have hf : catalog.find? (fun b => b.id == backupId) = none := by
    rw [List.find?_eq_none]
    intro b hb
    simpa using h b hb
  unfold restoreBackup
  rw [hf]

theorem restore_unknown_id_untouched_witness :
    restoreBackup [⟨"backup-1", "2026-01-01T00:00:00Z", "Pre-migration backup", none, none⟩]
      (fun _ => none) (fun _ t => t) true [("middleware.ts", "export {}")] "backup-2" =
      (Except.error "Backup backup-2 not found", [("middleware.ts", "export {}")], []) :=
  restore_unknown_id_untouched _ _ _ _ _ _ (by decide)

/-- C8: the complexity tier is a pure function of the file count and the
issue count with exactly the spec's thresholds (more than 50 files or more
than 5 issues gives high; otherwise more than 20 files or more than 2
issues gives medium; otherwise low), each tier comes with its fixed
time-range string, and in particular 51 files gives high, 21 files gives
medium, and 5 files with 0 issues gives low. -/
theorem complexity_thresholds :
    (∀ f i : Nat, calculateComplexity f i =
       if 50 < f ∨ 5 < i then (Complexity.high, "30-60 minutes")
       else if 20 < f ∨ 2 < i then (Complexity.medium, "15-30 minutes")
       else (Complexity.low, "5-15 minutes")) ∧
    (∀ f i : Nat,
       (calculateComplexity f i).2 = estimatedTimeFor (calculateComplexity f i).1) ∧
    (calculateComplexity 51 0).1 = Complexity.high ∧
    (calculateComplexity 21 0).1 = Complexity.medium ∧
    (calculateComplexity 5 0).1 = Complexity.low := by
  refine ⟨fun f i => rfl, fun f i => ?_, by decide, by decide, by decide⟩
  unfold calculateComplexity estimatedTimeFor
  split
  · rfl
  · split <;> rfl

/-- C9: no file content can ever receive the `add-cache-life-profile` tag,
because its detection predicate is the contradiction
`content.includes('revalidateTag(') && !content.includes('revalidateTag(')`;
and the corresponding rewrite rule returns its input unchanged, so `migrate`
never invokes a rule that does anything for this tag. -/
theorem cache_life_profile_never_detected :
    (∀ filePath content : String,
       (detectTransformations filePath content).contains "add-cache-life-profile" = false) ∧
    (∀ source : JProgram, addCacheLifeProfile source = source) := by
  refine ⟨fun filePath content => ?_, fun source => rfl⟩
  unfold detectTransformations
  cases h : containsStr content "revalidateTag(" <;> simp [h]

/-- Atomic syntax-tree nodes (identifiers and string literals) are the
possible arguments of a real cache-invalidation call; the rewrite leaves
them unchanged. -/
def atomicExpr : JExpr → Bool
  | .ident _ => true
  | .lit _ => true
  | _ => false

theorem updateRevalidateTagExpr_atomic (a : JExpr) (h : atomicExpr a = true) :
    updateRevalidateTagExpr a = a := by
  cases a <;> simp [atomicExpr] at h <;> rfl

theorem updateRevalidateTagArgs_atomic (args : List JExpr)
    (h : ∀ a ∈ args, atomicExpr a = true) :
    updateRevalidateTagArgs args = args := by
  induction args with
  | nil => rfl
  | cons a rest ih =>
    rw [updateRevalidateTagArgs, updateRevalidateTagExpr_atomic a (h a (by simp)),
        ih (fun x hx => h x (by simp [hx]))]

mutual
/-- The argument lists of all `revalidateTag` calls occurring in a node,
in traversal order (`revalCallsArgsList` does the same for a list of
nodes, hence for a whole file). -/
def revalCallsArgs : JExpr → List (List JExpr)
  | .ident _ => []
  | .lit _ => []
  | .member o _ => revalCallsArgs o
  | .waitE e => revalCallsArgs e
  | .call c args =>
    (if isRevalidateTagIdent c then [args] else []) ++ revalCallsArgs c
      ++ revalCallsArgsList args
def revalCallsArgsList : List JExpr → List (List JExpr)
  | [] => []
  | e :: es => revalCallsArgs e ++ revalCallsArgsList es
end

theorem revalCallsArgsList_append (l₁ l₂ : List JExpr) :
    revalCallsArgsList (l₁ ++ l₂) = revalCallsArgsList l₁ ++ revalCallsArgsList l₂ := by
  induction l₁ with
  | nil => rfl
  | cons e es ih => rw [List.cons_append, revalCallsArgsList, revalCallsArgsList, ih,
      List.append_assoc]

theorem revalCallsArgs_atomic (a : JExpr) (h : atomicExpr a = true) :
    revalCallsArgs a = [] := by
  cases a <;> simp [atomicExpr] at h <;> rfl

theorem revalCallsArgsList_atomic (l : List JExpr) (h : ∀ a ∈ l, atomicExpr a = true) :
    revalCallsArgsList l = [] := by
  induction l with
  | nil => rfl
  | cons a rest ih =>
    rw [revalCallsArgsList, revalCallsArgs_atomic a (h a (by simp)),
        ih (fun x hx => h x (by simp [hx])), List.nil_append]

theorem isRevalidateTagIdent_upd (c : JExpr) :
    isRevalidateTagIdent (updateRevalidateTagExpr c) = isRevalidateTagIdent c := by
  cases c with
  | ident n => rfl
  | lit s => rfl
  | member o p => rfl
  | waitE e => rfl
  | call c args =>
    rw [updateRevalidateTagExpr]
    split <;> rfl

mutual
/-- Under atomic call arguments, the rewrite appends `'max'` to exactly
the argument lists of length 1, everywhere in the tree. -/
theorem revalCallsArgs_upd (e : JExpr)
    (h : ∀ args ∈ revalCallsArgs e, ∀ a ∈ args, atomicExpr a = true) :
    revalCallsArgs (updateRevalidateTagExpr e) =
      (revalCallsArgs e).map
        (fun args => if args.length = 1 then args ++ [JExpr.lit "max"] else args) := by
  cases e with
  | ident n => rfl
  | lit s => rfl
  | member o p =>
    rw [updateRevalidateTagExpr]
    show revalCallsArgs (updateRevalidateTagExpr o) = _
    exact revalCallsArgs_upd o h
  | waitE e1 =>
    rw [updateRevalidateTagExpr]
    show revalCallsArgs (updateRevalidateTagExpr e1) = _
    exact revalCallsArgs_upd e1 h
  | call c args =>
    have hsplit : ∀ x ∈ (if isRevalidateTagIdent c then [args] else []) ++ revalCallsArgs c
        ++ revalCallsArgsList args, ∀ a ∈ x, atomicExpr a = true := h
    have hc : ∀ x ∈ revalCallsArgs c, ∀ a ∈ x, atomicExpr a = true :=
      fun x hx => hsplit x (by simp [hx])
    have hl : ∀ x ∈ revalCallsArgsList args, ∀ a ∈ x, atomicExpr a = true :=
      fun x hx => hsplit x (by simp [hx])
    have ihc := revalCallsArgs_upd c hc
    have ihl := revalCallsArgsList_upd args hl
    rw [updateRevalidateTagExpr]
    by_cases hrv : isRevalidateTagIdent c = true
    · have hargs : ∀ a ∈ args, atomicExpr a = true :=
        hsplit args (by simp [hrv])
      have hupd : updateRevalidateTagArgs args = args :=
        updateRevalidateTagArgs_atomic args hargs
      have hrv2 : isRevalidateTagIdent (updateRevalidateTagExpr c) = true := by
        rw [isRevalidateTagIdent_upd]; exact hrv
      have hac : atomicExpr c = true := by
        cases c <;> first | rfl | simp [isRevalidateTagIdent] at hrv
      by_cases hlen : args.length = 1
      · rw [if_pos (by simp [hrv2, hupd, hlen])]
        rw [revalCallsArgs, revalCallsArgs]
        rw [hrv2, if_pos rfl]
        rw [revalCallsArgsList_append, hupd]
        rw [revalCallsArgsList_atomic args hargs]
        have hmax : revalCallsArgsList [JExpr.lit "max"] = [] := rfl
        rw [hmax, ihc, revalCallsArgs_atomic c hac]
        simp [hrv, hlen, revalCallsArgsList_atomic args hargs]
      · rw [if_neg (by simp [hupd, hlen])]
        rw [revalCallsArgs, revalCallsArgs]
        rw [hrv2, if_pos rfl, hupd]
        rw [revalCallsArgsList_atomic args hargs, ihc, revalCallsArgs_atomic c hac]
        simp [hrv, hlen, revalCallsArgsList_atomic args hargs]
    · have hrv2 : isRevalidateTagIdent (updateRevalidateTagExpr c) = false := by
        rw [isRevalidateTagIdent_upd]; simpa using hrv
      rw [if_neg (by simp [hrv2])]
      rw [revalCallsArgs, revalCallsArgs]
      rw [hrv2]
      simp only [Bool.false_eq_true, if_neg, ite_false]
      rw [ihc, ihl]
      simp [hrv]
termination_by sizeOf e

theorem revalCallsArgsList_upd (es : List JExpr)
    (h : ∀ args ∈ revalCallsArgsList es, ∀ a ∈ args, atomicExpr a = true) :
    revalCallsArgsList (updateRevalidateTagArgs es) =
      (revalCallsArgsList es).map
        (fun args => if args.length = 1 then args ++ [JExpr.lit "max"] else args) := by
  cases es with
  | nil => rfl
  | cons e rest =>
    have he : ∀ x ∈ revalCallsArgs e, ∀ a ∈ x, atomicExpr a = true := by
      intro x hx
      refine h x ?_
      rw [revalCallsArgsList]
      simp [hx]
    have hr : ∀ x ∈ revalCallsArgsList rest, ∀ a ∈ x, atomicExpr a = true := by
      intro x hx
      refine h x ?_
      rw [revalCallsArgsList]
      simp [hx]
    rw [updateRevalidateTagArgs, revalCallsArgsList, revalCallsArgsList,
        revalCallsArgs_upd e he, revalCallsArgsList_upd rest hr, List.map_append]
termination_by sizeOf es
end

/-- C7: a file whose content contains a `revalidateTag(` call and no
`cacheLife` marker receives the `update-revalidate-tag` tag; the
corresponding rewrite maps a `revalidateTag` call with exactly one
(atomic) argument to the same call with the string literal `'max'`
appended as second argument, while a call with any other argument count is
left unchanged; and across a whole file the rewrite appends `'max'` to
exactly those `revalidateTag` calls whose argument list had length 1,
leaving every other call's arguments unchanged. -/
theorem revalidate_tag_detect_and_rewrite :
    (∀ filePath content : String, containsStr content "revalidateTag(" = true →
       containsStr content "cacheLife" = false →
       "update-revalidate-tag" ∈ detectTransformations filePath content) ∧
    (∀ args : List JExpr, (∀ a ∈ args, atomicExpr a = true) →
       updateRevalidateTagExpr (JExpr.call (JExpr.ident "revalidateTag") args) =
         JExpr.call (JExpr.ident "revalidateTag")
           (if args.length = 1 then args ++ [JExpr.lit "max"] else args)) ∧
    (∀ p : JProgram, (∀ args ∈ revalCallsArgsList p, ∀ a ∈ args, atomicExpr a = true) →
       revalCallsArgsList (updateRevalidateTag p) =
         (revalCallsArgsList p).map
           (fun args => if args.length = 1 then args ++ [JExpr.lit "max"] else args)) := by
  refine ⟨?_, ?_, fun p h => revalCallsArgsList_upd p h⟩
  · intro filePath content h1 h2
    have hc : containsStr content "revalidateTag" = true :=
      containsStr_trans content "revalidateTag(" "revalidateTag" h1 (by decide)
    unfold detectTransformations
    simp [hc, h2]
  · intro args h
    rw [updateRevalidateTagExpr]
    simp only [updateRevalidateTagArgs_atomic args h]
    have hr : updateRevalidateTagExpr (JExpr.ident "revalidateTag") =
        JExpr.ident "revalidateTag" := rfl
    by_cases hl : args.length = 1
    · simp [hr, isRevalidateTagIdent, hl]
    · simp [hr, isRevalidateTagIdent, hl, Nat.beq_eq_true_eq]

theorem revalidate_tag_detect_and_rewrite_witness :
    "update-revalidate-tag" ∈ detectTransformations "lib/cache.ts" "revalidateTag(\"posts\")" ∧
    updateRevalidateTagExpr (JExpr.call (JExpr.ident "revalidateTag") [JExpr.lit "posts"]) =
      JExpr.call (JExpr.ident "revalidateTag") [JExpr.lit "posts", JExpr.lit "max"] ∧
    revalCallsArgsList (updateRevalidateTag
        [JExpr.call (JExpr.ident "revalidateTag") [JExpr.lit "posts"],
         JExpr.call (JExpr.ident "revalidateTag") [JExpr.lit "a", JExpr.lit "b"]]) =
      [[JExpr.lit "posts", JExpr.lit "max"], [JExpr.lit "a", JExpr.lit "b"]] := by
  refine ⟨?_, ?_, ?_⟩
  · exact revalidate_tag_detect_and_rewrite.1 "lib/cache.ts" "revalidateTag(\"posts\")"
      (by decide) (by decide)
  · simpa using revalidate_tag_detect_and_rewrite.2.1 [JExpr.lit "posts"] (by simp [atomicExpr])
  · exact revalidate_tag_detect_and_rewrite.2.2
      [JExpr.call (JExpr.ident "revalidateTag") [JExpr.lit "posts"],
       JExpr.call (JExpr.ident "revalidateTag") [JExpr.lit "a", JExpr.lit "b"]]
      (by simp [revalCallsArgsList, revalCallsArgs, isRevalidateTagIdent, atomicExpr])

theorem take_append_take {α : Type} (l m : List α) (n : Nat) :
    (l ++ m.take n).take n = (l ++ m).take n := by
  rw [List.take_append_eq_append_take, List.take_append_eq_append_take, List.take_take]
  congr 2
  exact Nat.min_eq_left (Nat.sub_le _ _)

/-- Inserting into the catalog is exactly: prepend, then keep the first 10
entries (so existing entries are never reordered). -/
theorem saveBackupMetadata_eq (b : Backup) (m : Option (List Backup)) :
    saveBackupMetadata b m = some ((b :: listBackups m).take 10) := by
  unfold saveBackupMetadata listBackups
  dsimp only
  split
  · rfl
  · rw [List.take_of_length_le (by omega)]

theorem listBackups_insertBackups (bs : List Backup) (b : Backup)
    (meta : Option (List Backup)) :
    listBackups (insertBackups meta (b :: bs)) =
      ((b :: bs).reverse ++ listBackups meta).take 10 := by
  induction bs generalizing b meta with
  | nil => simp [insertBackups, saveBackupMetadata_eq, listBackups]
  | cons b2 rest ih =>
    have hstep : insertBackups meta (b :: b2 :: rest) =
        insertBackups (saveBackupMetadata b meta) (b2 :: rest) := rfl
    rw [hstep, ih, saveBackupMetadata_eq]
    show ((b2 :: rest).reverse ++ (b :: listBackups meta).take 10).take 10 = _
    rw [take_append_take]
    simp

/-- C3: after any sequence of 11 `createBackup` calls, `listBackups`
returns exactly 10 entries, newest first: the reverse of the insertion
sequence truncated to its 10 most recent entries; and every single
insertion is exactly a prepend followed by truncation to 10, which never
reorders the existing entries. -/
theorem catalog_bound_after_eleven (meta : Option (List Backup)) (bs : List Backup)
    (h : bs.length = 11) :
    (listBackups (insertBackups meta bs)).length = 10 ∧
    listBackups (insertBackups meta bs) = bs.reverse.take 10 ∧
    (∀ b m, saveBackupMetadata b m = some ((b :: listBackups m).take 10)) := by
  obtain ⟨b, rest, rfl⟩ : ∃ b rest, bs = b :: rest := by
    cases bs with
    | nil => simp at h
    | cons b r => exact ⟨b, r, rfl⟩
  have hlen : rest.length = 10 := by simpa using h
  have hmain : listBackups (insertBackups meta (b :: rest)) = (b :: rest).reverse.take 10 := by
    rw [listBackups_insertBackups, List.take_append_of_le_length (by simp [hlen])]
  refine ⟨?_, hmain, saveBackupMetadata_eq⟩
  rw [hmain, List.length_take]
  simp [hlen]

def elevenBackups : List Backup :=
  (List.range 11).map (fun i => ⟨s!"backup-{i}", "", "Pre-migration backup", none, none⟩)

theorem catalog_bound_after_eleven_witness :
    (listBackups (insertBackups none elevenBackups)).length = 10 ∧
    listBackups (insertBackups none elevenBackups) = elevenBackups.reverse.take 10 :=
  ⟨(catalog_bound_after_eleven none elevenBackups (by decide)).1,
   (catalog_bound_after_eleven none elevenBackups (by decide)).2.1⟩

theorem applyTags_append {α : Type} (reg : Registry α) (p : String)
    (l₁ l₂ : List String) (src : α) :
    applyTags reg p (l₁ ++ l₂) src =
      match applyTags reg p l₁ src with
      | .error e => .error e
      | .ok (mid, cs) =>
        match applyTags reg p l₂ mid with
        | .error e => .error e
        | .ok (fin, cs2) => .ok (fin, cs ++ cs2) := by
  induction l₁ generalizing src with
  | nil =>
    rw [List.nil_append]
    show applyTags reg p l₂ src =
      match applyTags reg p l₂ src with
      | .error e => .error e
      | .ok (fin, cs2) => .ok (fin, [] ++ cs2)
    cases h : applyTags reg p l₂ src with
    | error e => rfl
    | ok v => obtain ⟨fin, cs2⟩ := v; simp
  | cons t rest ih =>
    rw [List.cons_append, applyTags, applyTags]
    cases hl : List.lookup t reg with
    | none => exact ih src
    | some tr =>
      dsimp only
      cases ho : tr src with
      | error e => rfl
      | ok out =>
        dsimp only
        rw [ih out]
        cases ha : applyTags reg p rest out with
        | error e => rfl
        | ok v =>
          obtain ⟨mid, cs⟩ := v
          dsimp only
          cases hb : applyTags reg p l₂ mid with
          | error e => rfl
          | ok w => obtain ⟨fin, cs2⟩ := w; simp

/-- A rule error at tag `t` yields the wrapped message and makes the whole
tag loop fail there, whatever tags would have come after `t`. -/
theorem applyTags_fail {α : Type} (reg : Registry α) (p : String)
    (ts₁ ts₂ : List String) (src mid : α) (cs : List Change)
    (t msg : String) (tr : α → Except String α)
    (hok : applyTags reg p ts₁ src = .ok (mid, cs))
    (hlook : List.lookup t reg = some tr)
    (hfail : tr mid = .error msg) :
    applyTags reg p (ts₁ ++ t :: ts₂) src =
      .error s!"Transformation {t} failed: {msg}" := by
  rw [applyTags_append, hok]
  show (match applyTags reg p (t :: ts₂) mid with
        | .error e => Except.error e
        | .ok (fin, cs2) => .ok (fin, cs ++ cs2)) = _
  rw [applyTags, hlook]
  dsimp only
  rw [hfail]

/-- `migrate` processes a report file by file: the outcome on a
concatenation is the outcome on the first part followed by the outcome on
the second part run on the filesystem the first part left behind. -/
theorem migrate_append {α : Type} [BEq α] (reg : Registry α)
    (l₁ l₂ : List FileToTransform) (fs : FS α) :
    migrate reg fs (l₁ ++ l₂) =
      ((migrate reg (migrate reg fs l₁).1 l₂).1,
       ⟨(migrate reg fs l₁).2.successful + (migrate reg (migrate reg fs l₁).1 l₂).2.successful,
        (migrate reg fs l₁).2.failed + (migrate reg (migrate reg fs l₁).1 l₂).2.failed,
        (migrate reg fs l₁).2.changes ++ (migrate reg (migrate reg fs l₁).1 l₂).2.changes,
        (migrate reg fs l₁).2.errors ++ (migrate reg (migrate reg fs l₁).1 l₂).2.errors⟩) := by
  induction l₁ generalizing fs with
  | nil => simp [migrate]
  | cons f rest ih =>
    rw [List.cons_append, migrate, migrate]
    cases ht : transformFile reg fs f with
    | ok v =>
      obtain ⟨fs1, cs⟩ := v
      dsimp only
      rw [ih fs1]
      refine Prod.ext rfl ?_
      simp [MigrationResult.mk.injEq]
      omega
    | error e =>
      dsimp only
      rw [ih fs]
      refine Prod.ext rfl ?_
      simp [MigrationResult.mk.injEq]
      omega

/-- C4: when, in the middle of a report, a rule for tag `t` of file `f`
throws (after the tags before `t` succeeded), `migrate` records exactly
one error for `f` — carrying the tag name and the thrown message in the
wrapped form the engine uses — applies no further tag to `f` (the
conclusion does not depend on the tags after `t`, and `f` contributes no
change entries and no filesystem write), counts `f` once in the failure
count, and still processes the files before and after `f` exactly as it
would have, never aborting the batch. -/
theorem migrate_failure_isolation {α : Type} [BEq α] (reg : Registry α)
    (fs fs₁ fs₂ : FS α) (pre post : List FileToTransform) (f : FileToTransform)
    (r₁ r₂ : MigrationResult) (src mid : α) (cs : List Change)
    (ts₁ ts₂ : List String) (t msg : String) (tr : α → Except String α)
    (hpre : migrate reg fs pre = (fs₁, r₁))
    (hread : List.lookup f.path fs₁ = some src)
    (htags : f.transformations = ts₁ ++ t :: ts₂)
    (hok : applyTags reg f.path ts₁ src = .ok (mid, cs))
    (hlook : List.lookup t reg = some tr)
    (hfail : tr mid = .error msg)
    (hpost : migrate reg fs₁ post = (fs₂, r₂)) :
    migrate reg fs (pre ++ f :: post) =
      (fs₂, ⟨r₁.successful + r₂.successful,
             r₁.failed + (r₂.failed + 1),
             r₁.changes ++ r₂.changes,
             r₁.errors ++ ⟨f.path, s!"Transformation {t} failed: {msg}"⟩ :: r₂.errors⟩) := by
  have hfile : transformFile reg fs₁ f = .error s!"Transformation {t} failed: {msg}" := by
    unfold transformFile
    rw [hread]
    dsimp only
    rw [htags, applyTags_fail reg f.path ts₁ ts₂ src mid cs t msg tr hok hlook hfail]
  have hcons : migrate reg fs₁ (f :: post) =
      (fs₂, ⟨r₂.successful, r₂.failed + 1, r₂.changes,
             ⟨f.path, s!"Transformation {t} failed: {msg}"⟩ :: r₂.errors⟩) := by
    rw [migrate, hfile]
    dsimp only
    rw [hpost]
  rw [migrate_append, hpre]
  dsimp only
  rw [hcons]

def wReg : Registry String :=
  [("good", fun s => .ok (s ++ "!")), ("bad", fun _ => .error "boom")]

def wFs : FS String := [("a.ts", "A"), ("b.ts", "B"), ("c.ts", "C")]

def wFs1 : FS String := [("a.ts", "A!"), ("b.ts", "B"), ("c.ts", "C")]

theorem migrate_failure_isolation_witness :
    migrate wReg wFs
      ([⟨"a.ts", "other", ["good"]⟩] ++ ⟨"b.ts", "other", ["good", "bad", "good"]⟩ ::
        [⟨"c.ts", "other", []⟩]) =
      (wFs1, ⟨2, 1, [⟨"a.ts", "good", "transformation"⟩],
              [⟨"b.ts", "Transformation bad failed: boom"⟩]⟩) :=
  migrate_failure_isolation wReg wFs wFs1 wFs1
    [⟨"a.ts", "other", ["good"]⟩] [⟨"c.ts", "other", []⟩]
    ⟨"b.ts", "other", ["good", "bad", "good"]⟩
    ⟨1, 0, [⟨"a.ts", "good", "transformation"⟩], []⟩ ⟨1, 0, [], []⟩
    "B" "B!" [⟨"b.ts", "good", "transformation"⟩]
    ["good"] ["good"] "bad" "boom" (fun _ => .error "boom")
    rfl rfl rfl rfl rfl rfl rfl

/-- C10: per-file atomicity of `migrate`.  If any transformation for a
file throws, the filesystem after migrating that file is byte-identical to
the filesystem before; and on success the file is written only when the
final text differs from the original (and then with the text produced
after every tag was applied). -/
theorem per_file_atomicity {α : Type} [BEq α] (reg : Registry α) (fs : FS α)
    (f : FileToTransform) :
    (∀ e, transformFile reg fs f = .error e → (migrate reg fs [f]).1 = fs) ∧
    (∀ src fin cs, List.lookup f.path fs = some src →
       applyTags reg f.path f.transformations src = .ok (fin, cs) →
       (migrate reg fs [f]).1 =
         (if fin == src then fs else fsWrite fs f.path fin)) := by
  constructor
  · intro e he
    rw [migrate, he]
    rfl
  · intro src fin cs hread happ
    have hfile : transformFile reg fs f =
        .ok (if fin == src then fs else fsWrite fs f.path fin, cs) := by
      unfold transformFile
      rw [hread]
      dsimp only
      rw [happ]
    rw [migrate, hfile]
    rfl

theorem per_file_atomicity_witness :
    (migrate [("bad", fun (_ : String) => Except.error "boom")] [("a.ts", "A")]
       [⟨"a.ts", "other", ["bad"]⟩]).1 = [("a.ts", "A")] ∧
    (migrate [("good", fun (s : String) => Except.ok (s ++ "!"))] [("a.ts", "A")]
       [⟨"a.ts", "other", ["good"]⟩]).1 = fsWrite [("a.ts", "A")] "a.ts" "A!" := by
  constructor
  · exact (per_file_atomicity _ _ _).1 "Transformation bad failed: boom" rfl
  · exact (per_file_atomicity [("good", fun (s : String) => Except.ok (s ++ "!"))]
      [("a.ts", "A")] ⟨"a.ts", "other", ["good"]⟩).2 "A" "A!"
      [⟨"a.ts", "good", "transformation"⟩] rfl rfl

/-- A file consisting of one single-argument cache-invalidation call. -/
def cachedFile : JProgram := [JExpr.call (JExpr.ident "revalidateTag") [JExpr.lit "posts"]]

/-- The same file after the `update-revalidate-tag` rewrite. -/
def cachedFileRewritten : JProgram :=
  [JExpr.call (JExpr.ident "revalidateTag") [JExpr.lit "posts", JExpr.lit "max"]]

/-- C2 evaluated at a failing input: the file `lib/cache-calls.ts` with
content `revalidateTag("posts");` is tagged exactly
`[update-revalidate-tag]`; migrating it succeeds (1 success, 0 failures)
and rewrites the call to `revalidateTag("posts", "max")`; yet re-running
detection on the rewritten content detects `update-revalidate-tag` again
(the text still contains `revalidateTag` and still no `cacheLife`), so the
intersection of the re-detected tags with the just-applied tags is not
empty — detection is not idempotent after a fully successful rewrite. -/
theorem revalidate_redetect_after_rewrite :
    detectTransformations "lib/cache-calls.ts" (serializeProgram cachedFile) =
      ["update-revalidate-tag"] ∧
    migrate cacheRegistry [("lib/cache-calls.ts", cachedFile)]
      [⟨"lib/cache-calls.ts", "other", ["update-revalidate-tag"]⟩] =
      ([("lib/cache-calls.ts", cachedFileRewritten)],
       ⟨1, 0, [⟨"lib/cache-calls.ts", "Update revalidateTag calls with cacheLife profile",
               "transformation"⟩], []⟩) ∧
    detectTransformations "lib/cache-calls.ts" (serializeProgram cachedFileRewritten) =
      ["update-revalidate-tag"] ∧
    (detectTransformations "lib/cache-calls.ts"
        (serializeProgram cachedFileRewritten)).inter ["update-revalidate-tag"] =
      ["update-revalidate-tag"] :=
  ⟨rfl, rfl, rfl, rfl⟩

/-- C6 evaluated at a failing input: during the scan of three candidate
files of which the second is unreadable, `findFilesToTransform` propagates
the read error (there is no try/catch on the per-file read), so the scan
aborts and no report covering the two readable files is produced. -/
theorem unreadable_file_aborts_scan :
    findFilesToTransform
      (fun p =>
        if p = "app/page.tsx" then .ok "const params = 1"
        else if p = "app/broken.tsx" then .error "EACCES: permission denied, open app/broken.tsx"
        else if p = "lib/cache.ts" then .ok "revalidateTag(\"posts\")"
        else .error "ENOENT")
      ["app/page.tsx", "app/broken.tsx", "lib/cache.ts"] =
    .error "EACCES: permission denied, open app/broken.tsx" := rfl

end NextMigrator
